import Mathlib

/-!
Shallow embedding of `kmeans.go` (package kmeans): a generic k-means
implementation with greedy farthest-point seeding.

Modelling conventions:
- the element type `T` is arbitrary (the Go code is generic in `T any`);
- `float64` distances are modelled as exact rationals `ℚ`;
- the sentinel `math.MaxFloat64` that initialises `minDistance` in
  `nearestCluster` is modelled as `Option ℚ` being `none` (every rational
  compares below the sentinel, matching every ordinary float comparing
  below `MaxFloat64`);
- Go slice indexing that can panic (`data[nodeIdx]`, `clusters[idx]`)
  is modelled with `Option`, `none` being the panic;
- the single call `rnd.Intn(len(data))` in `initClusters` is modelled by
  an explicit parameter `r : Nat` (the index the generator returned);
- the unbounded `for changed` loop in `partition` is modelled with fuel:
  `partitionFuel k fuel clusters = none` for every `fuel` means the Go
  loop never exits.  The seeding loop needs no fuel: each Go iteration
  either appends exactly one cluster or panics, so it runs exactly
  `numClusters - 1` times unless it panics earlier.
-/

namespace KM

/-- Cluster mirrors `type Cluster[T any] struct { Centroid T; Nodes []T }`. -/
structure Cluster (T : Type) where
  centroid : T
  nodes : List T
deriving DecidableEq, Repr

/-- KMeans mirrors the fields of `type KMeans[T any] struct` except the
random source, which is passed explicitly where it is consumed. -/
structure KMeans (T : Type) where
  data : List T
  distance : T → T → ℚ
  mean : List T → T
  equals : T → T → Bool

variable {T : Type}

/-- NewKMeans mirrors `func NewKMeans`: error (`none`) iff `len(data) == 0`. -/
def NewKMeans (data : List T) (distance : T → T → ℚ) (mean : List T → T)
    (equals : T → T → Bool) : Option (KMeans T) :=
  if data.length = 0 then none
  else some ⟨data, distance, mean, equals⟩

/-- nearestClusterAux mirrors the loop body of `func nearestCluster`:
state is (remaining clusters, position of the head, current minDistance,
current idx).  `minD = none` is the initial `math.MaxFloat64`. -/
def nearestClusterAux (k : KMeans T) (node : T) :
    List (Cluster T) → Nat → Option ℚ → Int → Int
  | [], _, _, idx => idx
  | c :: cs, i, minD, idx =>
    let d := k.distance node c.centroid
    match minD with
    | none => nearestClusterAux k node cs (i + 1) (some d) (i : Int)
    | some m =>
      if d < m then nearestClusterAux k node cs (i + 1) (some d) (i : Int)
      else nearestClusterAux k node cs (i + 1) (some m) idx

/-- nearestCluster mirrors `func (k *KMeans[T]) nearestCluster`:
`minDistance := math.MaxFloat64; idx := -1`, then scan. -/
def nearestCluster (k : KMeans T) (node : T) (clusters : List (Cluster T)) : Int :=
  nearestClusterAux k node clusters 0 none (-1)

/-- clusterAt models the Go expression `clusters[k.nearestCluster(node, clusters)]`
(line 67): `none` is the index-out-of-range panic. -/
def clusterAt (k : KMeans T) (node : T) (clusters : List (Cluster T)) :
    Option (Cluster T) :=
  let i := nearestCluster k node clusters
  if h : 0 ≤ i ∧ i.toNat < clusters.length then some (clusters.get ⟨i.toNat, h.2⟩)
  else none

/-- nearestSeedDist is `k.distance(x, clusters[nearestCluster(x, clusters)].Centroid)`
(lines 67-68), totalised with default 0; the default is never reached when
`clusters` is nonempty. -/
def nearestSeedDist (k : KMeans T) (clusters : List (Cluster T)) (x : T) : ℚ :=
  match clusterAt k x clusters with
  | some c => k.distance x c.centroid
  | none => 0

/-- inL mirrors `func in(i int, p []int) bool`: linear membership scan. -/
def inL (i : Nat) : List Nat → Bool
  | [] => false
  | s :: rest => if s = i then true else inL i rest

/-- scanMax mirrors the inner `for i` loop of `initClusters` (lines 62-74):
state is (remaining data, position of the head, nodeDistance, nodeIdx).
`none` is the panic inside `clusters[k.nearestCluster(...)]`. -/
def scanMax (k : KMeans T) (idxs : List Nat) (clusters : List (Cluster T)) :
    List T → Nat → ℚ → Int → Option (ℚ × Int)
  | [], _, best, bIdx => some (best, bIdx)
  | x :: rest, i, best, bIdx =>
    if inL i idxs then scanMax k idxs clusters rest (i + 1) best bIdx
    else
      match clusterAt k x clusters with
      | none => none
      | some c =>
        let d := k.distance x c.centroid
        if best < d then scanMax k idxs clusters rest (i + 1) d (i : Int)
        else scanMax k idxs clusters rest (i + 1) best bIdx

/-- seedRound is one execution of lines 59-74: scan all observations with
`nodeDistance := -1.0; nodeIdx := -1`. -/
def seedRound (k : KMeans T) (idxs : List Nat) (clusters : List (Cluster T)) :
    Option (ℚ × Int) :=
  scanMax k idxs clusters k.data 0 (-1) (-1)

/-- seedLoop mirrors the `for uint(len(clusters)) < numClusters` loop of
`initClusters`: since every iteration appends exactly one cluster (or
panics at `k.data[nodeIdx]`), the loop runs exactly `m` more rounds where
`m` is the remaining count; a negative or out-of-range `nodeIdx` is the
Go panic, modelled as `none`. -/
def seedLoop (k : KMeans T) :
    Nat → List Nat → List (Cluster T) → Option (List Nat × List (Cluster T))
  | 0, idxs, clusters => some (idxs, clusters)
  | m + 1, idxs, clusters =>
    match seedRound k idxs clusters with
    | none => none
    | some (_, bIdx) =>
      if 0 ≤ bIdx then
        match k.data.get? bIdx.toNat with
        | none => none
        | some x => seedLoop k m (idxs ++ [bIdx.toNat]) (clusters ++ [⟨x, []⟩])
      else none

/-- initClustersFull mirrors `func (k *KMeans[T]) initClusters` keeping
the local `idx` slice in the result; `r` is the value `k.rnd.Intn(len(k.data))`
returned by the generator, so `r < len(data)` in every real execution. -/
def initClustersFull (k : KMeans T) (r : Nat) (numClusters : Nat) :
    Option (List Nat × List (Cluster T)) :=
  match k.data.get? r with
  | none => none
  | some x => seedLoop k (numClusters - 1) [r] [⟨x, []⟩]

/-- initClusters is `initClustersFull` dropping the internal index list,
matching the Go return value. -/
def initClusters (k : KMeans T) (r : Nat) (numClusters : Nat) :
    Option (List (Cluster T)) :=
  (initClustersFull k r numClusters).map (fun p => p.2)

/-- updateNth replaces the element at one position, mirroring the in-place
slice write `clusters[nearestClusterIdx].Nodes = append(...)`. -/
def updateNth : List (Cluster T) → Nat → (Cluster T → Cluster T) → List (Cluster T)
  | [], _, _ => []
  | c :: cs, 0, f => f c :: cs
  | c :: cs, n + 1, f => c :: updateNth cs n f

/-- assignOne mirrors lines 118-119: append one observation to the cluster
returned by `nearestCluster`; `none` is the panic on an invalid index. -/
def assignOne (k : KMeans T) (clusters : List (Cluster T)) (x : T) :
    Option (List (Cluster T)) :=
  let i := nearestCluster k x clusters
  if 0 ≤ i ∧ i.toNat < clusters.length then
    some (updateNth clusters i.toNat (fun c => ⟨c.centroid, c.nodes ++ [x]⟩))
  else none

/-- assignStep mirrors the assignment loop (lines 117-120) over all
observations, threading the mutated cluster slice. -/
def assignStep (k : KMeans T) (clusters : List (Cluster T)) :
    Option (List (Cluster T)) :=
  k.data.foldlM (fun cs x => assignOne k cs x) clusters

/-- updateStep mirrors the update loop (lines 125-129): each centroid is
recomputed as `mean(nodes)`, and the returned Bool is `changedInIteration`,
the OR over clusters of `k.equals(pc, newCentroid)` exactly as line 128
computes it. -/
def updateStep (k : KMeans T) : List (Cluster T) → List (Cluster T) × Bool
  | [] => ([], false)
  | c :: cs =>
    let nc := k.mean c.nodes
    let r := updateStep k cs
    (⟨nc, c.nodes⟩ :: r.1, (k.equals c.centroid nc || r.2))

/-- partitionFuel mirrors `func (k *KMeans[T]) partition` with fuel for the
unbounded `for changed` loop: the body always runs once, and the loop
repeats while `changedInIteration` is true.  `none` for every fuel value
means the Go loop never exits (or panicked inside assignment). -/
def partitionFuel (k : KMeans T) :
    Nat → List (Cluster T) → Option (List (Cluster T))
  | 0, _ => none
  | fuel + 1, clusters =>
    match assignStep k clusters with
    | none => none
    | some cs1 =>
      if (updateStep k cs1).2 then partitionFuel k fuel (updateStep k cs1).1
      else some (updateStep k cs1).1

/-- calculateFuel mirrors `func (k *KMeans[T]) Calculate`: seed, then refine. -/
def calculateFuel (k : KMeans T) (r : Nat) (fuel : Nat) (numClusters : Nat) :
    Option (List (Cluster T)) :=
  match initClusters k r numClusters with
  | none => none
  | some clusters => partitionFuel k fuel clusters

/-! Concrete instances used in counterexamples and witnesses. -/

/-- dEx is the distance `|a - b|` on integer observations, valued in ℚ. -/
def dEx (a b : ℤ) : ℚ := ((a - b).natAbs : ℚ)

/-- mEx is an injected mean function: the sum of the members. -/
def mEx (l : List ℤ) : ℤ := l.sum

/-- eEx is exact equality of representatives. -/
def eEx (a b : ℤ) : Bool := a == b

/-- kEx is a clustering instance over the single observation `[0]`. -/
def kEx : KMeans ℤ := ⟨[0], dEx, mEx, eEx⟩

/-- kEx3 is a clustering instance over the observations `[1, 5]`. -/
def kEx3 : KMeans ℤ := ⟨[1, 5], dEx, mEx, eEx⟩

/-- seedMatch states that a cluster list consists exactly of the
observations at the tracked positions, each with an empty member list. -/
def seedMatch (k : KMeans T) (idxs : List Nat) (cs : List (Cluster T)) : Prop :=
  cs.map (fun c => (some c.centroid, c.nodes))
    = idxs.map (fun i => (k.data.get? i, ([] : List T)))

/-! Basic lemmas. -/

lemma inL_iff (i : Nat) : ∀ l : List Nat, inL i l = true ↔ i ∈ l := by
  intro l
  induction l with
  | nil => simp [inL]
  | cons s rest ih =>
    by_cases h : s = i
    · subst h; simp [inL]
    · have h2 : ¬ i = s := fun hc => h hc.symm
      simp [inL, h, h2, ih]

/-- Characterisation of `nearestClusterAux` once `minDistance` is a real
value `b` held at index `bi`: either no later cluster improves on `b` and
`bi` survives, or the result is the position of the leftmost strict
minimum among the remaining clusters. -/
lemma nearestClusterAux_some (k : KMeans T) (x : T) :
    ∀ (cs : List (Cluster T)) (i : Nat) (b : ℚ) (bi : Int),
      (nearestClusterAux k x cs i (some b) bi = bi ∧
        ∀ j (hj : j < cs.length), b ≤ k.distance x (cs.get ⟨j, hj⟩).centroid) ∨
      (∃ j, ∃ hj : j < cs.length,
        nearestClusterAux k x cs i (some b) bi = ((i + j : Nat) : Int) ∧
        k.distance x (cs.get ⟨j, hj⟩).centroid < b ∧
        (∀ j2 (hj2 : j2 < cs.length),
          k.distance x (cs.get ⟨j, hj⟩).centroid ≤
            k.distance x (cs.get ⟨j2, hj2⟩).centroid) ∧
        (∀ j2 (hj2 : j2 < j),
          k.distance x (cs.get ⟨j, hj⟩).centroid <
            k.distance x (cs.get ⟨j2, Nat.lt_trans hj2 hj⟩).centroid)) := by
  intro cs
  induction cs with
  | nil =>
    intro i b bi
    left
    exact ⟨rfl, fun j hj => absurd hj (by simp)⟩
  | cons c cs ih =>
    intro i b bi
    by_cases hlt : k.distance x c.centroid < b
    · have heq : nearestClusterAux k x (c :: cs) i (some b) bi
          = nearestClusterAux k x cs (i + 1) (some (k.distance x c.centroid)) (i : Int) := by
        simp [nearestClusterAux, hlt]
      rcases ih (i + 1) (k.distance x c.centroid) (i : Int) with
        ⟨hres, hall⟩ | ⟨j, hj, hres, hlt2, hmin, hstrict⟩
      · right
        refine ⟨0, by simp, ?_, ?_, ?_, ?_⟩
        · rw [heq, hres]; norm_num
        · simpa using hlt
        · intro j2 hj2
          match j2 with
          | 0 => simp
          | j2 + 1 =>
            simp only [List.get_cons_succ, List.get_cons_zero]
            exact hall j2 (by simpa using hj2)
        · intro j2 hj2; omega
      · right
        refine ⟨j + 1, by simpa using hj, ?_, ?_, ?_, ?_⟩
        · rw [heq, hres]; congr 1; omega
        · simp only [List.get_cons_succ]
          exact lt_trans hlt2 hlt
        · intro j2 hj2
          match j2 with
          | 0 =>
            simp only [List.get_cons_succ, List.get_cons_zero]
            exact le_of_lt hlt2
          | j2 + 1 =>
            simp only [List.get_cons_succ]
            exact hmin j2 (by simpa using hj2)
        · intro j2 hj2
          match j2 with
          | 0 =>
            simp only [List.get_cons_succ, List.get_cons_zero]
            exact hlt2
          | j2 + 1 =>
            simp only [List.get_cons_succ]
            exact hstrict j2 (by omega)
    · have heq : nearestClusterAux k x (c :: cs) i (some b) bi
          = nearestClusterAux k x cs (i + 1) (some b) bi := by
        simp [nearestClusterAux, hlt]
      rcases ih (i + 1) b bi with
        ⟨hres, hall⟩ | ⟨j, hj, hres, hlt2, hmin, hstrict⟩
      · left
        refine ⟨by rw [heq, hres], ?_⟩
        intro j hj
        match j with
        | 0 => simpa using le_of_not_lt hlt
        | j + 1 =>
          simp only [List.get_cons_succ]
          exact hall j (by simpa using hj)
      · right
        refine ⟨j + 1, by simpa using hj, ?_, ?_, ?_, ?_⟩
        · rw [heq, hres]; congr 1; omega
        · simpa using hlt2
        · intro j2 hj2
          match j2 with
          | 0 =>
            simp only [List.get_cons_succ, List.get_cons_zero]
            exact le_trans (le_of_lt hlt2) (le_of_not_lt hlt)
          | j2 + 1 =>
            simp only [List.get_cons_succ]
            exact hmin j2 (by simpa using hj2)
        · intro j2 hj2
          match j2 with
          | 0 =>
            simp only [List.get_cons_succ, List.get_cons_zero]
            exact lt_of_lt_of_le hlt2 (le_of_not_lt hlt)
          | j2 + 1 =>
            simp only [List.get_cons_succ]
            exact hstrict j2 (by omega)

/-- nearestCluster on a nonempty cluster list returns the position of the
leftmost cluster whose centroid minimises the distance to `x`. -/
lemma nearestCluster_spec (k : KMeans T) (x : T) (c0 : Cluster T)
    (cs0 : List (Cluster T)) :
    ∃ j, ∃ hj : j < (c0 :: cs0).length,
      nearestCluster k x (c0 :: cs0) = (j : Int) ∧
      (∀ j2 (hj2 : j2 < (c0 :: cs0).length),
        k.distance x ((c0 :: cs0).get ⟨j, hj⟩).centroid ≤
          k.distance x ((c0 :: cs0).get ⟨j2, hj2⟩).centroid) ∧
      (∀ j2 (hj2 : j2 < j),
        k.distance x ((c0 :: cs0).get ⟨j, hj⟩).centroid <
          k.distance x ((c0 :: cs0).get ⟨j2, Nat.lt_trans hj2 hj⟩).centroid) := by
  have heq : nearestCluster k x (c0 :: cs0)
      = nearestClusterAux k x cs0 1 (some (k.distance x c0.centroid)) 0 := by
    simp [nearestCluster, nearestClusterAux]
  rcases nearestClusterAux_some k x cs0 1 (k.distance x c0.centroid) 0 with
    ⟨hres, hall⟩ | ⟨j, hj, hres, hlt2, hmin, hstrict⟩
  · refine ⟨0, by simp, by rw [heq, hres]; simp, ?_, ?_⟩
    · intro j2 hj2
      match j2 with
      | 0 => simp
      | j2 + 1 =>
        simp only [List.get_cons_succ, List.get_cons_zero]
        exact hall j2 (by simpa using hj2)
    · intro j2 hj2; omega
  · refine ⟨j + 1, by simpa using hj, ?_, ?_, ?_⟩
    · rw [heq, hres]; congr 1; omega
    · intro j2 hj2
      match j2 with
      | 0 =>
        simp only [List.get_cons_succ, List.get_cons_zero]
        exact le_of_lt hlt2
      | j2 + 1 =>
        simp only [List.get_cons_succ]
        exact hmin j2 (by simpa using hj2)
    · intro j2 hj2
      match j2 with
      | 0 =>
        simp only [List.get_cons_succ, List.get_cons_zero]
        exact hlt2
      | j2 + 1 =>
        simp only [List.get_cons_succ]
        exact hstrict j2 (by omega)

/-- clusterAt on a nonempty cluster list never panics: it selects a cluster
whose centroid is at minimal distance from `x`, and `nearestSeedDist` is
that minimal distance. -/
lemma clusterAt_cons (k : KMeans T) (x : T) (c0 : Cluster T)
    (cs0 : List (Cluster T)) :
    ∃ j, ∃ hj : j < (c0 :: cs0).length,
      clusterAt k x (c0 :: cs0) = some ((c0 :: cs0).get ⟨j, hj⟩) ∧
      nearestSeedDist k (c0 :: cs0) x
        = k.distance x ((c0 :: cs0).get ⟨j, hj⟩).centroid ∧
      (∀ j2 (hj2 : j2 < (c0 :: cs0).length),
        nearestSeedDist k (c0 :: cs0) x
          ≤ k.distance x ((c0 :: cs0).get ⟨j2, hj2⟩).centroid) := by
  obtain ⟨j, hj, hres, hmin, _⟩ := nearestCluster_spec k x c0 cs0
  have hcond : 0 ≤ nearestCluster k x (c0 :: cs0) ∧
      (nearestCluster k x (c0 :: cs0)).toNat < (c0 :: cs0).length := by
    rw [hres]
    refine ⟨Int.natCast_nonneg j, ?_⟩
    simpa using hj
  have hAt : clusterAt k x (c0 :: cs0)
      = some ((c0 :: cs0).get ⟨(nearestCluster k x (c0 :: cs0)).toNat, hcond.2⟩) := by
    unfold clusterAt
    exact dif_pos hcond
  have htn : (nearestCluster k x (c0 :: cs0)).toNat = j := by
    rw [hres]; simp
  have hfin : (⟨(nearestCluster k x (c0 :: cs0)).toNat, hcond.2⟩ :
      Fin (c0 :: cs0).length) = ⟨j, hj⟩ := Fin.ext htn
  have hAt2 : clusterAt k x (c0 :: cs0) = some ((c0 :: cs0).get ⟨j, hj⟩) := by
    rw [hAt, hfin]
  have hnd : nearestSeedDist k (c0 :: cs0) x
      = k.distance x ((c0 :: cs0).get ⟨j, hj⟩).centroid := by
    simp [nearestSeedDist, hAt2]
  exact ⟨j, hj, hAt2, hnd, fun j2 hj2 => hnd ▸ hmin j2 hj2⟩

/-- nearestSeedDist is non-negative when the distance function is. -/
lemma nearestSeedDist_nonneg (k : KMeans T)
    (hnn : ∀ a b, 0 ≤ k.distance a b) (x : T) (c0 : Cluster T)
    (cs0 : List (Cluster T)) : 0 ≤ nearestSeedDist k (c0 :: cs0) x := by
  obtain ⟨j, hj, _, hnd, _⟩ := clusterAt_cons k x c0 cs0
  rw [hnd]
  exact hnn _ _

/-- Characterisation of the seeding scan over the tail `rest` placed at
offset `i`, with current maximum `best` held at `bIdx`: either no
not-yet-chosen observation beats `best` and the accumulator survives, or
the scan returns the position of the leftmost strict maximum of the
nearest-chosen-centroid distance among not-yet-chosen observations. -/
lemma scanMax_spec (k : KMeans T) (idxs : List Nat) (c0 : Cluster T)
    (cs0 : List (Cluster T)) :
    ∀ (rest : List T) (i : Nat) (best : ℚ) (bIdx : Int),
      (scanMax k idxs (c0 :: cs0) rest i best bIdx = some (best, bIdx) ∧
        ∀ j (hj : j < rest.length), (i + j) ∉ idxs →
          nearestSeedDist k (c0 :: cs0) (rest.get ⟨j, hj⟩) ≤ best) ∨
      (∃ j, ∃ hj : j < rest.length, (i + j) ∉ idxs ∧
        scanMax k idxs (c0 :: cs0) rest i best bIdx
          = some (nearestSeedDist k (c0 :: cs0) (rest.get ⟨j, hj⟩),
              ((i + j : Nat) : Int)) ∧
        best < nearestSeedDist k (c0 :: cs0) (rest.get ⟨j, hj⟩) ∧
        (∀ j2 (hj2 : j2 < j), (i + j2) ∉ idxs →
          nearestSeedDist k (c0 :: cs0) (rest.get ⟨j2, Nat.lt_trans hj2 hj⟩) <
            nearestSeedDist k (c0 :: cs0) (rest.get ⟨j, hj⟩)) ∧
        (∀ j2 (hj2 : j2 < rest.length), j < j2 → (i + j2) ∉ idxs →
          nearestSeedDist k (c0 :: cs0) (rest.get ⟨j2, hj2⟩) ≤
            nearestSeedDist k (c0 :: cs0) (rest.get ⟨j, hj⟩))) := by
  intro rest
  induction rest with
  | nil =>
    intro i best bIdx
    left
    exact ⟨rfl, fun j hj => absurd hj (by simp)⟩
  | cons x rest ih =>
    intro i best bIdx
    by_cases hmem : i ∈ idxs
    · have heq : scanMax k idxs (c0 :: cs0) (x :: rest) i best bIdx
          = scanMax k idxs (c0 :: cs0) rest (i + 1) best bIdx := by
        simp [scanMax, (inL_iff i idxs).2 hmem]
      rcases ih (i + 1) best bIdx with
        ⟨hres, hall⟩ | ⟨j, hj, hnot, hres, hbest, hearlier, hlater⟩
      · left
        refine ⟨by rw [heq, hres], ?_⟩
        intro j hj hnotj
        match j with
        | 0 => exact absurd (by simpa using hmem) (by simpa using hnotj)
        | j + 1 =>
          simp only [List.get_cons_succ]
          refine hall j (by simpa using hj) ?_
          have h2 : i + 1 + j = i + (j + 1) := by omega
          rw [h2]
          exact hnotj
      · right
        refine ⟨j + 1, by simpa using hj, ?_, ?_, ?_, ?_, ?_⟩
        · have h2 : i + (j + 1) = i + 1 + j := by omega
          rw [h2]
          exact hnot
        · rw [heq, hres]
          simp only [List.get_cons_succ]
          congr 2
          omega
        · simpa using hbest
        · intro j2 hj2 hnotj2
          match j2 with
          | 0 =>
            exact absurd (by simpa using hmem) (by simpa using hnotj2)
          | j2 + 1 =>
            simp only [List.get_cons_succ]
            refine hearlier j2 (by omega) ?_
            have h2 : i + 1 + j2 = i + (j2 + 1) := by omega
            rw [h2]
            exact hnotj2
        · intro j2 hj2 hgt hnotj2
          match j2 with
          | 0 => omega
          | j2 + 1 =>
            simp only [List.get_cons_succ]
            refine hlater j2 (by simpa using hj2) (by omega) ?_
            have h2 : i + 1 + j2 = i + (j2 + 1) := by omega
            rw [h2]
            exact hnotj2
    · have hf : inL i idxs = false := by
        rw [← Bool.not_eq_true]
        simp [inL_iff, hmem]
      obtain ⟨jc, hjc, hAt, hnd, _⟩ := clusterAt_cons k x c0 cs0
      have heq0 : scanMax k idxs (c0 :: cs0) (x :: rest) i best bIdx
          = if best < nearestSeedDist k (c0 :: cs0) x then
              scanMax k idxs (c0 :: cs0) rest (i + 1)
                (nearestSeedDist k (c0 :: cs0) x) (i : Int)
            else scanMax k idxs (c0 :: cs0) rest (i + 1) best bIdx := by
        rw [hnd]
        simp [scanMax, hf, hAt]
      by_cases hbd : best < nearestSeedDist k (c0 :: cs0) x
      · have heq : scanMax k idxs (c0 :: cs0) (x :: rest) i best bIdx
            = scanMax k idxs (c0 :: cs0) rest (i + 1)
                (nearestSeedDist k (c0 :: cs0) x) (i : Int) := by
          rw [heq0, if_pos hbd]
        rcases ih (i + 1) (nearestSeedDist k (c0 :: cs0) x) (i : Int) with
          ⟨hres, hall⟩ | ⟨j, hj, hnot, hres, hbest, hearlier, hlater⟩
        · right
          refine ⟨0, by simp, by simpa using hmem, ?_, by simpa using hbd, ?_, ?_⟩
          · rw [heq, hres]
            simp
          · intro j2 hj2; omega
          · intro j2 hj2 hgt hnotj2
            match j2 with
            | 0 => omega
            | j2 + 1 =>
              simp only [List.get_cons_succ, List.get_cons_zero]
              refine hall j2 (by simpa using hj2) ?_
              have h2 : i + 1 + j2 = i + (j2 + 1) := by omega
              rw [h2]
              exact hnotj2
        · right
          refine ⟨j + 1, by simpa using hj, ?_, ?_, ?_, ?_, ?_⟩
          · have h2 : i + (j + 1) = i + 1 + j := by omega
            rw [h2]
            exact hnot
          · rw [heq, hres]
            simp only [List.get_cons_succ]
            congr 2
            omega
          · simp only [List.get_cons_succ]
            exact lt_trans hbd hbest
          · intro j2 hj2 hnotj2
            match j2 with
            | 0 =>
              simp only [List.get_cons_succ, List.get_cons_zero]
              exact hbest
            | j2 + 1 =>
              simp only [List.get_cons_succ]
              refine hearlier j2 (by omega) ?_
              have h2 : i + 1 + j2 = i + (j2 + 1) := by omega
              rw [h2]
              exact hnotj2
          · intro j2 hj2 hgt hnotj2
            match j2 with
            | 0 => omega
            | j2 + 1 =>
              simp only [List.get_cons_succ]
              refine hlater j2 (by simpa using hj2) (by omega) ?_
              have h2 : i + 1 + j2 = i + (j2 + 1) := by omega
              rw [h2]
              exact hnotj2
      · have heq : scanMax k idxs (c0 :: cs0) (x :: rest) i best bIdx
            = scanMax k idxs (c0 :: cs0) rest (i + 1) best bIdx := by
          rw [heq0, if_neg hbd]
        rcases ih (i + 1) best bIdx with
          ⟨hres, hall⟩ | ⟨j, hj, hnot, hres, hbest, hearlier, hlater⟩
        · left
          refine ⟨by rw [heq, hres], ?_⟩
          intro j hj hnotj
          match j with
          | 0 => simpa using le_of_not_lt hbd
          | j + 1 =>
            simp only [List.get_cons_succ]
            refine hall j (by simpa using hj) ?_
            have h2 : i + 1 + j = i + (j + 1) := by omega
            rw [h2]
            exact hnotj
        · right
          refine ⟨j + 1, by simpa using hj, ?_, ?_, ?_, ?_, ?_⟩
          · have h2 : i + (j + 1) = i + 1 + j := by omega
            rw [h2]
            exact hnot
          · rw [heq, hres]
            simp only [List.get_cons_succ]
            congr 2
            omega
          · simpa using hbest
          · intro j2 hj2 hnotj2
            match j2 with
            | 0 =>
              simp only [List.get_cons_succ, List.get_cons_zero]
              exact lt_of_le_of_lt (le_of_not_lt hbd) hbest
            | j2 + 1 =>
              simp only [List.get_cons_succ]
              refine hearlier j2 (by omega) ?_
              have h2 : i + 1 + j2 = i + (j2 + 1) := by omega
              rw [h2]
              exact hnotj2
          · intro j2 hj2 hgt hnotj2
            match j2 with
            | 0 => omega
            | j2 + 1 =>
              simp only [List.get_cons_succ]
              refine hlater j2 (by simpa using hj2) (by omega) ?_
              have h2 : i + 1 + j2 = i + (j2 + 1) := by omega
              rw [h2]
              exact hnotj2

/-- Pigeonhole: a duplicate-free list of positions below `n` that is
shorter than `n` misses some position below `n`. -/
lemma exists_unchosen (n : Nat) (idxs : List Nat) (hd : idxs.Nodup)
    (hb : ∀ i ∈ idxs, i < n) (hl : idxs.length < n) :
    ∃ j, j < n ∧ j ∉ idxs := by
  by_contra h
  push_neg at h
  have hsub : Finset.range n ⊆ idxs.toFinset := by
    intro j hj
    rw [List.mem_toFinset]
    exact h j (Finset.mem_range.mp hj)
  have hcard := Finset.card_le_card hsub
  rw [Finset.card_range, List.toFinset_card_of_nodup hd] at hcard
  omega

/-- Invariant of the seeding loop: starting from duplicate-free in-range
positions with matching clusters and enough unchosen observations left,
every remaining round succeeds, and positions stay duplicate-free and
in range while growing by one per round. -/
lemma seedLoop_sound (k : KMeans T) (hnn : ∀ a b, 0 ≤ k.distance a b) :
    ∀ (m : Nat) (idxs : List Nat) (clusters : List (Cluster T)),
      idxs ≠ [] → idxs.Nodup → (∀ i ∈ idxs, i < k.data.length) →
      seedMatch k idxs clusters → idxs.length + m ≤ k.data.length →
      ∃ idxs2 clusters2,
        seedLoop k m idxs clusters = some (idxs2, clusters2) ∧
        idxs2.Nodup ∧ (∀ i ∈ idxs2, i < k.data.length) ∧
        idxs2.length = idxs.length + m ∧ seedMatch k idxs2 clusters2 := by
  intro m
  induction m with
  | zero =>
    intro idxs clusters hne hd hb hm hl
    exact ⟨idxs, clusters, rfl, hd, hb, by omega, hm⟩
  | succ m ihm =>
    intro idxs clusters hne hd hb hm hl
    obtain ⟨c0, cs0, hcs⟩ : ∃ c0 cs0, clusters = c0 :: cs0 := by
      cases hclusters : clusters with
      | nil =>
        exfalso
        rw [hclusters] at hm
        unfold seedMatch at hm
        simp only [List.map_nil] at hm
        have : idxs = [] := by
          have := hm.symm
          rwa [List.map_eq_nil_iff] at this
        exact hne this
      | cons a b => exact ⟨a, b, rfl⟩
    subst hcs
    obtain ⟨u, hu, hunot⟩ := exists_unchosen k.data.length idxs hd hb (by omega)
    rcases scanMax_spec k idxs c0 cs0 k.data 0 (-1) (-1) with
      ⟨hres, hall⟩ | ⟨j, hj, hnot, hres, hbest, _, _⟩
    · exfalso
      have h1 := hall u hu (by simpa using hunot)
      have h2 := nearestSeedDist_nonneg k hnn (k.data.get ⟨u, hu⟩) c0 cs0
      linarith
    · have hnotj : j ∉ idxs := by simpa using hnot
      have hget : k.data.get? j = some (k.data.get ⟨j, hj⟩) := List.get?_eq_get hj
      have hset : seedRound k idxs (c0 :: cs0)
          = some (nearestSeedDist k (c0 :: cs0) (k.data.get ⟨j, hj⟩), (j : Int)) := by
        rw [seedRound, hres]
        simp
      have hget2 : k.data[j]? = some (k.data.get ⟨j, hj⟩) := by
        rw [← List.get?_eq_getElem?]
        exact hget
      have hstep : seedLoop k (m + 1) idxs (c0 :: cs0)
          = seedLoop k m (idxs ++ [j])
              ((c0 :: cs0) ++ [⟨k.data.get ⟨j, hj⟩, []⟩]) := by
        simp [seedLoop, hset, hget2]
      rw [hstep]
      have hd2 : (idxs ++ [j]).Nodup := by
        rw [List.nodup_append]
        exact ⟨hd, List.nodup_singleton j, by simpa using hnotj⟩
      have hb2 : ∀ i ∈ idxs ++ [j], i < k.data.length := by
        intro i hi
        rcases List.mem_append.mp hi with hi | hi
        · exact hb i hi
        · simp at hi
          omega
      have hm2 : seedMatch k (idxs ++ [j])
          ((c0 :: cs0) ++ [⟨k.data.get ⟨j, hj⟩, []⟩]) := by
        unfold seedMatch at hm ⊢
        rw [List.map_append, List.map_append, hm]
        simp [hget]
      obtain ⟨idxs2, clusters2, hloop, hd3, hb3, hl3, hm3⟩ :=
        ihm (idxs ++ [j]) ((c0 :: cs0) ++ [⟨k.data.get ⟨j, hj⟩, []⟩])
          (by simp) hd2 hb2 hm2 (by simp; omega)
      refine ⟨idxs2, clusters2, hloop, hd3, hb3, ?_, hm3⟩
      simp at hl3
      omega

/-- The seeding scan returns its accumulator untouched when every position
of the remaining observations has already been chosen. -/
lemma scanMax_all_skip (k : KMeans T) (idxs : List Nat)
    (clusters : List (Cluster T)) :
    ∀ (rest : List T) (i : Nat) (best : ℚ) (bIdx : Int),
      (∀ j, j < rest.length → (i + j) ∈ idxs) →
      scanMax k idxs clusters rest i best bIdx = some (best, bIdx) := by
  intro rest
  induction rest with
  | nil => intro i best bIdx _; rfl
  | cons x rest ih =>
    intro i best bIdx hall
    have hmem : i ∈ idxs := by simpa using hall 0 (by simp)
    have heq : scanMax k idxs clusters (x :: rest) i best bIdx
        = scanMax k idxs clusters rest (i + 1) best bIdx := by
      simp [scanMax, (inL_iff i idxs).2 hmem]
    rw [heq]
    apply ih
    intro j hj
    have h2 : i + 1 + j = i + (j + 1) := by omega
    rw [h2]
    exact hall (j + 1) (by simpa using hj)

/-- A further seeding round after every observation position has been
chosen leaves `nodeIdx = -1`, and indexing `data[-1]` is the panic. -/
lemma seedLoop_none_of_full (k : KMeans T) (idxs : List Nat)
    (clusters : List (Cluster T)) (m : Nat)
    (hfull : ∀ j, j < k.data.length → j ∈ idxs) :
    seedLoop k (m + 1) idxs clusters = none := by
  have hset : seedRound k idxs clusters = some (-1, -1) := by
    rw [seedRound]
    apply scanMax_all_skip
    intro j hj
    simpa using hfull j hj
  simp [seedLoop, hset]

/-- seedLoop runs its rounds sequentially. -/
lemma seedLoop_add (k : KMeans T) :
    ∀ (m1 m2 : Nat) (idxs : List Nat) (clusters : List (Cluster T)),
      seedLoop k (m1 + m2) idxs clusters
        = (seedLoop k m1 idxs clusters).bind (fun p => seedLoop k m2 p.1 p.2) := by
  intro m1
  induction m1 with
  | zero =>
    intro m2 idxs clusters
    rw [Nat.zero_add]
    simp [seedLoop]
  | succ m1 ih =>
    intro m2 idxs clusters
    have h2 : m1 + 1 + m2 = (m1 + m2) + 1 := by omega
    rw [h2]
    cases hsr : seedRound k idxs clusters with
    | none => simp [seedLoop, hsr]
    | some p =>
      obtain ⟨d, bIdx⟩ := p
      by_cases hge : 0 ≤ bIdx
      · cases hget : k.data[bIdx.toNat]? with
        | none => simp [seedLoop, hsr, hge, hget]
        | some x => simp [seedLoop, hsr, hge, hget, ih]
      · simp [seedLoop, hsr, hge]

/-- A duplicate-free list of positions below `n` with length at least `n`
contains every position below `n`. -/
lemma full_of_nodup_length (n : Nat) (idxs : List Nat) (hd : idxs.Nodup)
    (hb : ∀ i ∈ idxs, i < n) (hl : n ≤ idxs.length) :
    ∀ j, j < n → j ∈ idxs := by
  intro j hj
  have hsub : idxs.toFinset ⊆ Finset.range n := by
    intro i hi
    rw [Finset.mem_range]
    exact hb i (List.mem_toFinset.mp hi)
  have hcard : (Finset.range n).card ≤ idxs.toFinset.card := by
    rw [Finset.card_range, List.toFinset_card_of_nodup hd]
    omega
  have heq := Finset.eq_of_subset_of_card_le hsub hcard
  have hjmem : j ∈ idxs.toFinset := by
    rw [heq]
    exact Finset.mem_range.mpr hj
  exact List.mem_toFinset.mp hjmem

/-! Length preservation through the refinement loop. -/

lemma updateNth_length :
    ∀ (l : List (Cluster T)) (n : Nat) (f : Cluster T → Cluster T),
      (updateNth l n f).length = l.length := by
  intro l
  induction l with
  | nil => intro n f; rfl
  | cons c cs ih =>
    intro n f
    cases n with
    | zero => rfl
    | succ n => simp [updateNth, ih]

lemma assignOne_length (k : KMeans T) (clusters cs2 : List (Cluster T)) (x : T)
    (h : assignOne k clusters x = some cs2) : cs2.length = clusters.length := by
  unfold assignOne at h
  by_cases hc : 0 ≤ nearestCluster k x clusters ∧
      (nearestCluster k x clusters).toNat < clusters.length
  · rw [if_pos hc] at h
    cases h
    exact updateNth_length clusters _ _
  · rw [if_neg hc] at h
    cases h

lemma foldlM_assign_length (k : KMeans T) :
    ∀ (l : List T) (clusters cs2 : List (Cluster T)),
      l.foldlM (fun cs x => assignOne k cs x) clusters = some cs2 →
      cs2.length = clusters.length := by
  intro l
  induction l with
  | nil =>
    intro clusters cs2 h
    cases h
    rfl
  | cons x rest ih =>
    intro clusters cs2 h
    rw [List.foldlM_cons] at h
    cases hone : assignOne k clusters x with
    | none =>
      rw [hone] at h
      simp at h
    | some cs1 =>
      rw [hone] at h
      simp only [Option.bind_eq_bind, Option.some_bind] at h
      rw [ih cs1 cs2 h, assignOne_length k clusters cs1 x hone]

lemma assignStep_length (k : KMeans T) (clusters cs2 : List (Cluster T))
    (h : assignStep k clusters = some cs2) : cs2.length = clusters.length :=
  foldlM_assign_length k k.data clusters cs2 h

lemma updateStep_length (k : KMeans T) :
    ∀ clusters : List (Cluster T),
      (updateStep k clusters).1.length = clusters.length := by
  intro clusters
  induction clusters with
  | nil => rfl
  | cons c cs ih => simp [updateStep, ih]

lemma partitionFuel_length (k : KMeans T) :
    ∀ (fuel : Nat) (clusters cs2 : List (Cluster T)),
      partitionFuel k fuel clusters = some cs2 → cs2.length = clusters.length := by
  intro fuel
  induction fuel with
  | zero => intro clusters cs2 h; cases h
  | succ fuel ih =>
    intro clusters cs2 h
    cases hassign : assignStep k clusters with
    | none =>
      simp only [partitionFuel, hassign] at h
      cases h
    | some cs1 =>
      simp only [partitionFuel, hassign] at h
      by_cases hch : (updateStep k cs1).2 = true
      · rw [if_pos hch] at h
        rw [ih (updateStep k cs1).1 cs2 h, updateStep_length,
          assignStep_length k clusters cs1 hassign]
      · rw [if_neg hch] at h
        cases h
        rw [updateStep_length, assignStep_length k clusters cs1 hassign]

/-- On the single all-zero observation set `kEx`, every update step leaves
the centroid at 0 yet reports `changed` (line 128 ORs `equals(old, new)`
into the flag), so the refinement loop never exits: the member list of the
unique cluster grows by one copy of 0 per iteration. -/
lemma allZero_partition :
    ∀ (fuel : Nat) (l : List ℤ), (∀ x ∈ l, x = 0) →
      partitionFuel kEx fuel [⟨0, l⟩] = none := by
  intro fuel
  induction fuel with
  | zero => intro l _; rfl
  | succ fuel ih =>
    intro l hzero
    have hassign : assignStep kEx [⟨0, l⟩] = some [⟨0, l ++ [0]⟩] := rfl
    have hsum : mEx (l ++ [0]) = 0 := by
      unfold mEx
      apply List.sum_eq_zero
      intro x hx
      rcases List.mem_append.mp hx with hx | hx
      · exact hzero x hx
      · simpa using hx
    have hupd : updateStep kEx [⟨0, l ++ [0]⟩] = ([⟨0, l ++ [0]⟩], true) := by
      simp [updateStep, kEx, hsum, eEx]
    have hstep : partitionFuel kEx (fuel + 1) [⟨0, l⟩]
        = partitionFuel kEx fuel [⟨0, l ++ [0]⟩] := by
      simp [partitionFuel, hassign, hupd]
    rw [hstep]
    apply ih
    intro x hx
    rcases List.mem_append.mp hx with hx | hx
    · exact hzero x hx
    · simpa using hx

/-- The example distance is non-negative. -/
lemma dEx_nonneg : ∀ a b : ℤ, 0 ≤ dEx a b := fun _ _ => Nat.cast_nonneg _

/-! Claim theorems. -/

/-- Claim C5: construction returns an error (no object) exactly when the
observation collection is empty, and for every non-empty collection it
succeeds, returning the object holding the supplied data and functions. -/
theorem claim_C5 (data : List T) (distance : T → T → ℚ) (mean : List T → T)
    (equals : T → T → Bool) :
    (NewKMeans data distance mean equals = none ↔ data = []) ∧
    (data ≠ [] → NewKMeans data distance mean equals
      = some ⟨data, distance, mean, equals⟩) := by
  refine ⟨⟨?_, ?_⟩, ?_⟩
  · intro h
    by_cases hl : data.length = 0
    · exact List.length_eq_zero.mp hl
    · rw [NewKMeans, if_neg hl] at h
      cases h
  · intro h
    subst h
    rfl
  · intro h
    rw [NewKMeans, if_neg (fun hl => h (List.length_eq_zero.mp hl))]

/-- Witness for C5 at the concrete non-empty collection `[0]`. -/
theorem claim_C5_witness :
    NewKMeans [(0 : ℤ)] dEx mEx eEx = some ⟨[0], dEx, mEx, eEx⟩ :=
  (claim_C5 [(0 : ℤ)] dEx mEx eEx).2 (by simp)

/-- Claim C1 is refuted by the code: line 128 ORs `equals(old, new)` into
`changedInIteration`, so the loop keeps running precisely while some
centroid did NOT change and stops only when every centroid changed — the
opposite of the claimed rule.  On the observation set `[0]` with one
seeded cluster, the first update leaves the centroid at 0 with
`equals(old, new) = true`; the claimed rule would stop there, yet the
step reports changed and the loop never exits for any amount of fuel. -/
theorem claim_C1_bug :
    kEx.equals 0 (kEx.mean [0]) = true ∧
    updateStep kEx [⟨0, [0]⟩] = ([⟨0, [0]⟩], true) ∧
    (∀ fuel, partitionFuel kEx fuel [⟨0, []⟩] = none) := by
  refine ⟨rfl, rfl, ?_⟩
  intro fuel
  exact allZero_partition fuel [] (by simp)

/-- Claim C2 is refuted by the code: the assignment loop (lines 117-120)
appends to `Nodes` without ever resetting it.  On the observation set
`[0]` with one seeded cluster, the first iteration ends with members `[0]`
and reports changed, so a second iteration runs; its assignment step
starts from the member list `[0]` left over from the first and ends at
`[0, 0]` — members carry over between iterations instead of the claimed
reset to empty. -/
theorem claim_C2_bug :
    assignStep kEx [⟨0, []⟩] = some [⟨0, [0]⟩] ∧
    updateStep kEx [⟨0, [0]⟩] = ([⟨0, [0]⟩], true) ∧
    assignStep kEx [⟨0, [0]⟩] = some [⟨0, [0, 0]⟩] :=
  ⟨rfl, rfl, rfl⟩

/-- Claim C8 is refuted by the code: on the non-empty collection `[0]`
(whose distance satisfies d(x, x) = 0), `Calculate(1)` never returns.
The seeded centroid 0 equals `mean(all)`, so the inverted convergence
test of line 128 reports changed on every iteration and the refinement
loop runs forever, instead of returning one cluster containing all
observations with centroid `mean(all observations)`. -/
theorem claim_C8_bug :
    (∀ a : ℤ, kEx.distance a a = 0) ∧
    (∀ fuel, calculateFuel kEx 0 fuel 1 = none) := by
  constructor
  · intro a
    simp [kEx, dEx]
  · intro fuel
    have hinit : initClusters kEx 0 1 = some [⟨0, []⟩] := rfl
    have hstep : calculateFuel kEx 0 fuel 1 = partitionFuel kEx fuel [⟨0, []⟩] := by
      simp only [calculateFuel, hinit]
    rw [hstep]
    exact allZero_partition fuel [] (by simp)

/-- Claim C4 counterexample: with the single observation `[0]` and
`numClusters = 2`, seeding terminates — it does not run forever.  Every
iteration of the Go seeding loop either appends exactly one cluster or
panics, so the loop body runs at most `numClusters - 1` times; here the
second round scans no unchosen observation, leaves `nodeIdx = -1`, and
`k.data[nodeIdx]` panics (modelled as `none`). -/
theorem claim_C4_counterexample : initClustersFull kEx 0 2 = none := by decide

/-- Claim C4 amended: for `numClusters > |observations|` (in-range first
random pick, non-negative distance) the seeding procedure terminates
abnormally rather than looping forever: once all observation positions
are chosen, the max-distance scan keeps `nodeIdx = -1` and indexing
`data[nodeIdx]` panics (`none`). -/
theorem claim_C4_theorem (k : KMeans T) (r numClusters : Nat)
    (hr : r < k.data.length) (hnn : ∀ a b, 0 ≤ k.distance a b)
    (hgt : k.data.length < numClusters) :
    initClustersFull k r numClusters = none := by
  have hget : k.data.get? r = some (k.data.get ⟨r, hr⟩) := List.get?_eq_get hr
  have hsplit : numClusters - 1
      = (k.data.length - 1) + (numClusters - k.data.length) := by omega
  obtain ⟨idxs2, clusters2, hloop, hd2, hb2, hl2, hm2⟩ :=
    seedLoop_sound k hnn (k.data.length - 1) [r] [⟨k.data.get ⟨r, hr⟩, []⟩]
      (by simp) (List.nodup_singleton r) (by simpa using hr)
      (by unfold seedMatch; simp [hget]) (by simp; omega)
  have hfull : ∀ j, j < k.data.length → j ∈ idxs2 := by
    apply full_of_nodup_length k.data.length idxs2 hd2 hb2
    simp at hl2
    omega
  obtain ⟨m2, hm2eq⟩ : ∃ m2, numClusters - k.data.length = m2 + 1 :=
    ⟨numClusters - k.data.length - 1, by omega⟩
  have hrest : seedLoop k (numClusters - 1) [r] [⟨k.data.get ⟨r, hr⟩, []⟩]
      = none := by
    rw [hsplit, seedLoop_add, hloop, hm2eq]
    simp only [Option.some_bind]
    exact seedLoop_none_of_full k idxs2 clusters2 m2 hfull
  simp only [initClustersFull]
  rw [hget]
  exact hrest

/-- Witness for the amended C4 at the concrete instance `kEx` with
`numClusters = 2 > 1 = |observations|`. -/
theorem claim_C4_witness : initClustersFull kEx 0 2 = none :=
  claim_C4_theorem kEx 0 2 (by decide) dEx_nonneg (by decide)

/-- Claim C3 is refuted by the code: on observations `[1, 5]` with
distance |a - b|, injected mean = sum of members, exact equality,
`numClusters = 2` and first random pick at index 0, `Calculate` returns
after two refinement iterations (the second update changes every
centroid, so the inverted test exits).  Because member lists are never
cleared between iterations, each observation then occurs twice across
the member lists instead of exactly once. -/
theorem claim_C3_bug :
    calculateFuel kEx3 0 2 2 = some [⟨2, [1, 1]⟩, ⟨10, [5, 5]⟩] ∧
    (([⟨2, [1, 1]⟩, ⟨10, [5, 5]⟩] : List (Cluster ℤ)).map
      (fun c => c.nodes)).flatten.count 1 = 2 :=
  ⟨by decide, by decide⟩

/-- Claim C9: in the assignment step each observation `x` is appended to
the member list of the cluster whose centroid minimises
`distance(x, centroid)`, and when several clusters attain the minimal
distance the lowest cluster index receives it: `nearestCluster` returns
the leftmost minimiser and the assignment appends exactly there. -/
theorem claim_C9 (k : KMeans T) (x : T) (clusters : List (Cluster T))
    (hne : clusters ≠ []) :
    ∃ j, ∃ hj : j < clusters.length,
      nearestCluster k x clusters = (j : Int) ∧
      assignOne k clusters x
        = some (updateNth clusters j (fun c => ⟨c.centroid, c.nodes ++ [x]⟩)) ∧
      (∀ j2 (hj2 : j2 < clusters.length),
        k.distance x (clusters.get ⟨j, hj⟩).centroid
          ≤ k.distance x (clusters.get ⟨j2, hj2⟩).centroid) ∧
      (∀ j2 (hj2 : j2 < j),
        k.distance x (clusters.get ⟨j, hj⟩).centroid
          < k.distance x (clusters.get ⟨j2, Nat.lt_trans hj2 hj⟩).centroid) := by
  obtain ⟨c0, cs0, rfl⟩ := List.exists_cons_of_ne_nil hne
  obtain ⟨j, hj, hres, hmin, hstrict⟩ := nearestCluster_spec k x c0 cs0
  refine ⟨j, hj, hres, ?_, hmin, hstrict⟩
  unfold assignOne
  rw [hres, if_pos ⟨Int.natCast_nonneg j, by simpa using hj⟩]
  simp

/-- Witness for C9: observation 0, two clusters with centroids 0 and 1. -/
theorem claim_C9_witness :
    ∃ j, ∃ hj : j < ([⟨0, []⟩, ⟨1, []⟩] : List (Cluster ℤ)).length,
      nearestCluster kEx 0 [⟨0, []⟩, ⟨1, []⟩] = (j : Int) ∧
      assignOne kEx [⟨0, []⟩, ⟨1, []⟩] 0
        = some (updateNth [⟨0, []⟩, ⟨1, []⟩] j
            (fun c => ⟨c.centroid, c.nodes ++ [0]⟩)) ∧
      (∀ j2 (hj2 : j2 < ([⟨0, []⟩, ⟨1, []⟩] : List (Cluster ℤ)).length),
        kEx.distance 0 (([⟨0, []⟩, ⟨1, []⟩] : List (Cluster ℤ)).get ⟨j, hj⟩).centroid
          ≤ kEx.distance 0
              (([⟨0, []⟩, ⟨1, []⟩] : List (Cluster ℤ)).get ⟨j2, hj2⟩).centroid) ∧
      (∀ j2 (hj2 : j2 < j),
        kEx.distance 0 (([⟨0, []⟩, ⟨1, []⟩] : List (Cluster ℤ)).get ⟨j, hj⟩).centroid
          < kEx.distance 0
              (([⟨0, []⟩, ⟨1, []⟩] : List (Cluster ℤ)).get
                ⟨j2, Nat.lt_trans hj2 hj⟩).centroid) :=
  claim_C9 kEx 0 [⟨0, []⟩, ⟨1, []⟩] (by simp)

/-- Claim C6: in every round of the seeding loop (non-negative distance,
at least one cluster already chosen, at least one observation position
not yet chosen), the round selects a not-yet-chosen observation position
`b` whose distance to its nearest already-chosen centroid is maximal
among all unchosen observations, ties broken toward the lowest position,
and the loop appends exactly that observation as the next centroid.  The
two bundled conjuncts about `nearestSeedDist` record that it is the
minimum, attained distance to the already-chosen centroids. -/
theorem claim_C6 (k : KMeans T) (idxs : List Nat) (c0 : Cluster T)
    (cs0 : List (Cluster T)) (m : Nat)
    (hnn : ∀ a b, 0 ≤ k.distance a b)
    (hex : ∃ u, ∃ hu : u < k.data.length, u ∉ idxs) :
    ∃ b, ∃ hb : b < k.data.length,
      b ∉ idxs ∧
      seedRound k idxs (c0 :: cs0)
        = some (nearestSeedDist k (c0 :: cs0) (k.data.get ⟨b, hb⟩), (b : Int)) ∧
      (∀ c ∈ (c0 :: cs0), nearestSeedDist k (c0 :: cs0) (k.data.get ⟨b, hb⟩)
        ≤ k.distance (k.data.get ⟨b, hb⟩) c.centroid) ∧
      (∃ c ∈ (c0 :: cs0), nearestSeedDist k (c0 :: cs0) (k.data.get ⟨b, hb⟩)
        = k.distance (k.data.get ⟨b, hb⟩) c.centroid) ∧
      (∀ j, ∀ hj : j < k.data.length, j ∉ idxs →
        nearestSeedDist k (c0 :: cs0) (k.data.get ⟨j, hj⟩)
          ≤ nearestSeedDist k (c0 :: cs0) (k.data.get ⟨b, hb⟩)) ∧
      (∀ j, ∀ hj : j < k.data.length, j < b → j ∉ idxs →
        nearestSeedDist k (c0 :: cs0) (k.data.get ⟨j, hj⟩)
          < nearestSeedDist k (c0 :: cs0) (k.data.get ⟨b, hb⟩)) ∧
      seedLoop k (m + 1) idxs (c0 :: cs0)
        = seedLoop k m (idxs ++ [b]) ((c0 :: cs0) ++ [⟨k.data.get ⟨b, hb⟩, []⟩]) := by
  obtain ⟨u, hu, hunot⟩ := hex
  rcases scanMax_spec k idxs c0 cs0 k.data 0 (-1) (-1) with
    ⟨hres, hall⟩ | ⟨j, hj, hnot, hres, hbest, hearlier, hlater⟩
  · exfalso
    have h1 := hall u hu (by simpa using hunot)
    have h2 := nearestSeedDist_nonneg k hnn (k.data.get ⟨u, hu⟩) c0 cs0
    linarith
  · have hnotj : j ∉ idxs := by simpa using hnot
    have hget : k.data.get? j = some (k.data.get ⟨j, hj⟩) := List.get?_eq_get hj
    have hget2 : k.data[j]? = some (k.data.get ⟨j, hj⟩) := by
      rw [← List.get?_eq_getElem?]
      exact hget
    have hset : seedRound k idxs (c0 :: cs0)
        = some (nearestSeedDist k (c0 :: cs0) (k.data.get ⟨j, hj⟩), (j : Int)) := by
      rw [seedRound, hres]
      simp
    refine ⟨j, hj, hnotj, hset, ?_, ?_, ?_, ?_, ?_⟩
    · intro c hc
      obtain ⟨n, hn⟩ := List.mem_iff_get.mp hc
      obtain ⟨jc, hjc, _, hnd, hmin⟩ := clusterAt_cons k (k.data.get ⟨j, hj⟩) c0 cs0
      rw [← hn]
      exact hmin n.1 n.2
    · obtain ⟨jc, hjc, _, hnd, _⟩ := clusterAt_cons k (k.data.get ⟨j, hj⟩) c0 cs0
      exact ⟨(c0 :: cs0).get ⟨jc, hjc⟩, List.get_mem _ _ _, hnd⟩
    · intro j2 hj2 hnot2
      by_cases hlt : j2 < j
      · exact le_of_lt (hearlier j2 hlt (by simpa using hnot2))
      · by_cases heqj : j2 = j
        · subst heqj
          exact le_refl _
        · exact hlater j2 hj2 (by omega) (by simpa using hnot2)
    · intro j2 hj2 hlt hnot2
      exact hearlier j2 hlt (by simpa using hnot2)
    · simp [seedLoop, hset, hget2]

/-- Witness for C6: instance `kEx3` with position 0 already chosen and its
cluster seeded; position 1 is unchosen. -/
theorem claim_C6_witness :
    ∃ b, ∃ hb : b < kEx3.data.length,
      b ∉ [0] ∧
      seedRound kEx3 [0] [⟨1, []⟩]
        = some (nearestSeedDist kEx3 [⟨1, []⟩] (kEx3.data.get ⟨b, hb⟩), (b : Int)) ∧
      (∀ c ∈ ([⟨1, []⟩] : List (Cluster ℤ)),
        nearestSeedDist kEx3 [⟨1, []⟩] (kEx3.data.get ⟨b, hb⟩)
          ≤ kEx3.distance (kEx3.data.get ⟨b, hb⟩) c.centroid) ∧
      (∃ c ∈ ([⟨1, []⟩] : List (Cluster ℤ)),
        nearestSeedDist kEx3 [⟨1, []⟩] (kEx3.data.get ⟨b, hb⟩)
          = kEx3.distance (kEx3.data.get ⟨b, hb⟩) c.centroid) ∧
      (∀ j, ∀ hj : j < kEx3.data.length, j ∉ [0] →
        nearestSeedDist kEx3 [⟨1, []⟩] (kEx3.data.get ⟨j, hj⟩)
          ≤ nearestSeedDist kEx3 [⟨1, []⟩] (kEx3.data.get ⟨b, hb⟩)) ∧
      (∀ j, ∀ hj : j < kEx3.data.length, j < b → j ∉ [0] →
        nearestSeedDist kEx3 [⟨1, []⟩] (kEx3.data.get ⟨j, hj⟩)
          < nearestSeedDist kEx3 [⟨1, []⟩] (kEx3.data.get ⟨b, hb⟩)) ∧
      seedLoop kEx3 1 [0] [⟨1, []⟩]
        = seedLoop kEx3 0 ([0] ++ [b]) ([⟨1, []⟩] ++ [⟨kEx3.data.get ⟨b, hb⟩, []⟩]) :=
  claim_C6 kEx3 [0] ⟨1, []⟩ [] 0 dEx_nonneg ⟨1, by decide, by decide⟩

/-- Claim C7: for `1 ≤ numClusters ≤ |observations|`, an in-range first
random pick and a non-negative distance function, seeding succeeds and
the chosen positions are pairwise distinct (no index twice), exactly
`numClusters` many, all in range, with the produced clusters carrying
exactly the observations at those positions and empty member lists —
distinctness is by position, not by value. -/
theorem claim_C7 (k : KMeans T) (r numClusters : Nat)
    (hr : r < k.data.length) (hnn : ∀ a b, 0 ≤ k.distance a b)
    (h1 : 1 ≤ numClusters) (h2 : numClusters ≤ k.data.length) :
    ∃ idxs clusters,
      initClustersFull k r numClusters = some (idxs, clusters) ∧
      initClusters k r numClusters = some clusters ∧
      idxs.Nodup ∧ idxs.length = numClusters ∧
      (∀ i ∈ idxs, i < k.data.length) ∧
      clusters.map (fun c => (some c.centroid, c.nodes))
        = idxs.map (fun i => (k.data.get? i, ([] : List T))) := by
  have hget : k.data.get? r = some (k.data.get ⟨r, hr⟩) := List.get?_eq_get hr
  obtain ⟨idxs2, clusters2, hloop, hd2, hb2, hl2, hm2⟩ :=
    seedLoop_sound k hnn (numClusters - 1) [r] [⟨k.data.get ⟨r, hr⟩, []⟩]
      (by simp) (List.nodup_singleton r) (by simpa using hr)
      (by unfold seedMatch; simp [hget]) (by simp; omega)
  have hfull2 : initClustersFull k r numClusters = some (idxs2, clusters2) := by
    simp only [initClustersFull]
    rw [hget]
    exact hloop
  refine ⟨idxs2, clusters2, hfull2, ?_, hd2, ?_, hb2, hm2⟩
  · simp [initClusters, hfull2]
  · simp at hl2
    omega

/-- Witness for C7 at `kEx3` with `numClusters = 2 = |observations|`. -/
theorem claim_C7_witness :
    ∃ idxs clusters,
      initClustersFull kEx3 0 2 = some (idxs, clusters) ∧
      initClusters kEx3 0 2 = some clusters ∧
      idxs.Nodup ∧ idxs.length = 2 ∧
      (∀ i ∈ idxs, i < kEx3.data.length) ∧
      clusters.map (fun c => (some c.centroid, c.nodes))
        = idxs.map (fun i => (kEx3.data.get? i, ([] : List ℤ))) :=
  claim_C7 kEx3 0 2 (by decide) dEx_nonneg (by decide) (by decide)

/-- Claim C10: `Calculate(0)` behaves identically to `Calculate(1)`: the
seeder unconditionally appends the uniformly chosen first centroid before
testing the requested count, so both calls seed exactly one cluster and
run the same refinement; whenever the call returns, the returned cluster
set has length exactly 1. -/
theorem claim_C10 (k : KMeans T) (r fuel : Nat) :
    calculateFuel k r fuel 0 = calculateFuel k r fuel 1 ∧
    (∀ cs, calculateFuel k r fuel 0 = some cs → cs.length = 1) := by
  constructor
  · rfl
  · intro cs h
    cases hinit : initClusters k r 0 with
    | none =>
      simp only [calculateFuel, hinit] at h
      cases h
    | some cl =>
      simp only [calculateFuel, hinit] at h
      have hlen := partitionFuel_length k fuel cl cs h
      have hcl : cl.length = 1 := by
        unfold initClusters initClustersFull at hinit
        cases hget : k.data.get? r with
        | none =>
          rw [hget] at hinit
          cases hinit
        | some x =>
          rw [hget] at hinit
          simp only [seedLoop, Option.map_some] at hinit
          cases hinit
          rfl
      rw [hlen, hcl]

/-- Witness for C10: on `kEx3`, `Calculate(0)` returns a single cluster. -/
theorem claim_C10_witness :
    calculateFuel kEx3 0 1 0 = some [⟨6, [1, 5]⟩] ∧
    ([⟨(6 : ℤ), [1, 5]⟩] : List (Cluster ℤ)).length = 1 :=
  ⟨by decide, (claim_C10 kEx3 0 1).2 [⟨6, [1, 5]⟩] (by decide)⟩

end KM
